import Mathlib

/-! # Transactional outbox: a shallow embedding of `main.go`

The development models the outbox writer (`publishEventToOutbox`), the polling
publisher (`startOutboxPublisher`), its scheduler
(`startOutboxPublisherScheduler`), the consumer (`startEventHandlers`) and the
`POST /accounts` handler of `startHttpService`.

Conventions
* A Go `error` is `Option Err`; `none` is `nil`.
* Byte slices are `List Nat` (each element a byte value).
* The store, the broker, the clock and the Go runtime are not part of the
  repository.  Their outcomes (which call fails, which `select` case runs) are
  inputs of the model, so that every theorem quantifies over all of them.
-/

namespace Outbox

/-- A Go error value (its message). -/
abbrev Err := String

/-! ## Data model -/

/-- The struct `OutboxEvent` (main.go:30-35).  `PublishedAt` is a timestamp, kept as a
number of time units since some epoch. -/
structure OutboxEvent where
  ID : Nat
  Name : String
  Payload : List Nat
  PublishedAt : Nat
deriving DecidableEq

/-- The struct `CreateAccountRequest` (main.go:111-116). -/
structure CreateAccountRequest where
  Email : String
  Password : String
  FirstName : String
  LastName : String
deriving DecidableEq

/-- The struct `AccountCreatedEvent` (main.go:118-122); `CreatedAt` is a timestamp. -/
structure AccountCreatedEvent where
  AccountID : String
  Email : String
  CreatedAt : Nat
deriving DecidableEq

/-- The two dynamic types that reach the `payload any` parameter of `publishEvent` and
`publishEventToOutbox`: `*AccountCreatedEvent` (main.go:164) and `[]byte` (main.go:295). -/
inductive GoValue where
  | accountCreatedEvent (e : AccountCreatedEvent)
  | bytes (b : List Nat)
deriving DecidableEq

/-- The `amqp.Publishing` handed to `PublishWithContext` together with the positional
arguments of that call (main.go:191-194). -/
structure Publishing where
  exchange : String
  key : String
  mandatory : Bool
  immediate : Bool
  ContentType : String
  Body : List Nat
deriving DecidableEq

/-! ## `encoding/json` on the values the program marshals -/

/-- The alphabet of `base64.StdEncoding`, as byte values. -/
def base64Alphabet : List Nat :=
  [65, 66, 67, 68, 69, 70, 71, 72, 73, 74, 75, 76, 77, 78, 79, 80,
   81, 82, 83, 84, 85, 86, 87, 88, 89, 90,
   97, 98, 99, 100, 101, 102, 103, 104, 105, 106, 107, 108, 109, 110, 111, 112,
   113, 114, 115, 116, 117, 118, 119, 120, 121, 122,
   48, 49, 50, 51, 52, 53, 54, 55, 56, 57, 43, 47]

/-- The byte that encodes the 6-bit group `n`. -/
def base64Digit (n : Nat) : Nat := base64Alphabet.getD (n % 64) 0

/-- The padded encoding `base64.StdEncoding.EncodeToString`: three bytes become four
digits, a final group of one or two bytes is padded with `=` (61). -/
def base64Encode : List Nat → List Nat
  | [] => []
  | [a] => [base64Digit (a / 4), base64Digit ((a % 4) * 16), 61, 61]
  | [a, b] =>
      [base64Digit (a / 4), base64Digit ((a % 4) * 16 + b / 16),
       base64Digit ((b % 16) * 4), 61]
  | a :: b :: c :: rest =>
      base64Digit (a / 4) :: base64Digit ((a % 4) * 16 + b / 16) ::
        base64Digit ((b % 16) * 4 + c / 64) :: base64Digit (c % 64) ::
        base64Encode rest

/-- The function `json.Marshal` on the two payload types.  A `[]byte` is written as a JSON
string holding its base64 encoding, between two `"` (34).  The encoding of the struct
(field names, string escaping, time layout) belongs to the library and is the parameter
`marshalStruct`. -/
def jsonMarshal (marshalStruct : AccountCreatedEvent → Except Err (List Nat)) :
    GoValue → Except Err (List Nat)
  | .accountCreatedEvent e => marshalStruct e
  | .bytes b => .ok (34 :: base64Encode b ++ [34])

/-! ## The environment of one drain call -/

/-- Outcomes of the store and broker calls made by one call of `startOutboxPublisher`.
Index `i` is the position of a row in the result set of the query. -/
structure Env where
  /-- Encoding of the event struct by `json.Marshal`. -/
  marshalStruct : AccountCreatedEvent → Except Err (List Nat)
  /-- Error of `QueryContext` (main.go:273). -/
  queryErr : Option Err
  /-- Error that makes the call of `rows.Next()` for row `i` return false. -/
  nextErr : Nat → Option Err
  /-- Value of `rows.Err()` inside the loop body for row `i` (main.go:281). -/
  rowsErr : Nat → Option Err
  /-- Error of `rows.Scan` for row `i` (main.go:286). -/
  scanErr : Nat → Option Err
  /-- Error of `PublishWithContext` for row `i` (main.go:191). -/
  publishErr : Nat → Option Err
  /-- Error of the `DELETE` for row `i` (main.go:303). -/
  deleteErr : Nat → Option Err

/-- What a drain call does to the outside world, in order. -/
inductive Event where
  | published (row : OutboxEvent) (ok : Bool)
  | deleted (row : OutboxEvent) (ok : Bool)
deriving DecidableEq

/-- The store and the broker as seen by the publisher. -/
structure World where
  outbox : List OutboxEvent
  broker : List Publishing
  trace : List Event
deriving DecidableEq

/-! ## `publishEvent` and `publishEventToOutbox` -/

/-- The function `publishEvent` (main.go:185-200): marshal the payload, publish it to the
exchange `name` with an empty routing key.  Returns the error and the broker. -/
def publishEvent (marshalStruct : AccountCreatedEvent → Except Err (List Nat))
    (publishErr : Option Err) (name : String) (payload : GoValue)
    (broker : List Publishing) : Option Err × List Publishing :=
  match jsonMarshal marshalStruct payload with
  | .error e => (some e, broker)
  | .ok body =>
    match publishErr with
    | some e => (some e, broker)
    | none =>
      (none, broker ++ [{ exchange := name, key := "", mandatory := false,
                          immediate := false, ContentType := "application/json",
                          Body := body }])

/-- The function `publishEventToOutbox` (main.go:202-220) on the outbox table seen by the
transaction.  The row's `id` and `published_at` are assigned by the store. -/
def publishEventToOutbox (marshalStruct : AccountCreatedEvent → Except Err (List Nat))
    (insertErr : Option Err) (newID now : Nat) (name : String) (payload : GoValue)
    (table : List OutboxEvent) : Option Err × List OutboxEvent :=
  match jsonMarshal marshalStruct payload with
  | .error e => (some e, table)
  | .ok marshalledPayload =>
    match insertErr with
    | some e => (some e, table)
    | none =>
      (none, table ++ [{ ID := newID, Name := name, Payload := marshalledPayload,
                         PublishedAt := now }])

/-! ## `startOutboxPublisher` -/

/-- The order of `ORDER BY published_at DESC`: `a` comes before `b` when `a` is not older
than `b`. -/
def newerFirst (a b : OutboxEvent) : Prop := b.PublishedAt ≤ a.PublishedAt

instance : DecidableRel newerFirst := fun a b =>
  inferInstanceAs (Decidable (b.PublishedAt ≤ a.PublishedAt))

/-- The result set of
`SELECT id, name, payload, published_at FROM outbox_events ORDER BY published_at DESC LIMIT 5`
(main.go:273).  Rows with equal `published_at` keep their table order, a choice the store
leaves open. -/
def selectBatch (outbox : List OutboxEvent) : List OutboxEvent :=
  (outbox.insertionSort newerFirst).take 5

/-- The loop `for rows.Next() { ... }` (main.go:280-292).  `err` is the Go variable `err`,
`acc` is `outboxEvents`.  The result is `.error v` when the function returns `v` from
inside the loop and `.ok acc` when the loop ends, which it does as soon as `rows.Next()`
returns false, at the end of the result set or on an iteration error. -/
def readRows (env : Env) : Nat → List OutboxEvent → Option Err → List OutboxEvent →
    Except (Option Err) (List OutboxEvent)
  | _, [], _, acc => .ok acc
  | i, r :: rs, err, acc =>
    match env.nextErr i with
    | some _ => .ok acc
    | none =>
      match env.rowsErr i with
      | some _ => .error err
      | none =>
        match env.scanErr i with
        | some e => .error (some e)
        | none => readRows env (i + 1) rs none (acc ++ [r])

/-- The statement `DELETE FROM outbox_events WHERE id = $1` (main.go:303). -/
def deleteByID (id : Nat) (outbox : List OutboxEvent) : List OutboxEvent :=
  outbox.filter (fun r => r.ID ≠ id)

/-- The loop `for _, outboxEvent := range outboxEvents` (main.go:294-309); `i` is the
position of the head of the list in the batch. -/
def processRows (env : Env) : Nat → List OutboxEvent → World → World
  | _, [], w => w
  | i, r :: rs, w =>
    match publishEvent env.marshalStruct (env.publishErr i) r.Name (.bytes r.Payload)
        w.broker with
    | (some _, broker) =>
      processRows env (i + 1) rs
        { w with broker := broker, trace := w.trace ++ [.published r false] }
    | (none, broker) =>
      match env.deleteErr i with
      | some _ =>
        processRows env (i + 1) rs
          { w with broker := broker,
                   trace := w.trace ++ [.published r true, .deleted r false] }
      | none =>
        processRows env (i + 1) rs
          { outbox := deleteByID r.ID w.outbox, broker := broker,
            trace := w.trace ++ [.published r true, .deleted r true] }

/-- The function `startOutboxPublisher` (main.go:271-312): the returned error and the world
after the call. -/
def startOutboxPublisher (env : Env) (w : World) : Option Err × World :=
  match env.queryErr with
  | some e => (some e, w)
  | none =>
    match readRows env 0 (selectBatch w.outbox) none [] with
    | .error v => (v, w)
    | .ok outboxEvents => (none, processRows env 0 outboxEvents w)

/-! ## `startOutboxPublisherScheduler` -/

/-- What the `select` of the scheduler (main.go:318-327) finds ready when it wakes up.  With
both channels ready the Go runtime picks one case pseudo-randomly; `takesTick` is that
pick. -/
inductive Wake where
  | cancelOnly
  | tickOnly
  | both (takesTick : Bool)
deriving DecidableEq

/-- Whether `ctx.Done()` is ready, that is, the cancellation signal has fired. -/
def Wake.cancelled : Wake → Bool
  | .cancelOnly => true
  | .tickOnly => false
  | .both _ => true

/-- Whether a tick is waiting in `ticker.C`. -/
def Wake.tickPending : Wake → Bool
  | .cancelOnly => false
  | .tickOnly => true
  | .both _ => true

/-- Whether the `select` runs `case <-ticker.C` (otherwise it runs `case <-ctx.Done()`). -/
def Wake.runsTick : Wake → Bool
  | .cancelOnly => false
  | .tickOnly => true
  | .both takesTick => takesTick

/-- The outcome of a run of the scheduler.  `returned = none` means that the loop is
blocked in `select`; `drains` counts the calls of `startOutboxPublisher`, and
`drainsAfterCancel` those made at a check where the cancellation signal had fired. -/
structure SchedulerResult where
  returned : Option (Option Err)
  drains : Nat
  drainsAfterCancel : Nat
  world : World
deriving DecidableEq

/-- The loop of `startOutboxPublisherScheduler` (main.go:317-328) over the successive wake-ups
of its `select`; `envs n` is the environment of drain number `n`. -/
def schedulerLoop (envs : Nat → Env) : List Wake → Nat → Nat → World → SchedulerResult
  | [], n, c, w => { returned := none, drains := n, drainsAfterCancel := c, world := w }
  | k :: ks, n, c, w =>
    if k.runsTick then
      match startOutboxPublisher (envs n) w with
      | (some e, w') =>
        { returned := some (some e), drains := n + 1,
          drainsAfterCancel := if k.cancelled then c + 1 else c, world := w' }
      | (none, w') =>
        schedulerLoop envs ks (n + 1) (if k.cancelled then c + 1 else c) w'
    else
      { returned := some none, drains := n, drainsAfterCancel := c, world := w }

/-- The function `startOutboxPublisherScheduler` (main.go:314-329). -/
def startOutboxPublisherScheduler (envs : Nat → Env) (wakes : List Wake) (w : World) :
    SchedulerResult :=
  schedulerLoop envs wakes 0 0 w

/-! ## `startEventHandlers` -/

/-- A call on the AMQP channel, with the arguments named as in the signatures of
`amqp091-go`: `QueueDeclare(name, durable, autoDelete, exclusive, noWait, args)`,
`QueueBind(name, key, exchange, noWait, args)` and
`Consume(queue, consumer, autoAck, exclusive, noLocal, noWait, args)`. -/
inductive BrokerCall where
  | queueDeclare (name : String) (durable autoDelete exclusive noWait : Bool)
  | queueBind (name key exchange : String) (noWait : Bool)
  | consume (queue consumer : String) (autoAck exclusive noLocal noWait : Bool)
deriving DecidableEq

/-- A message taken from the delivery channel. -/
structure Delivery where
  tag : Nat
  body : List Nat
deriving DecidableEq

/-- How a delivery is settled: `msg.Ack(multiple)` or `msg.Nack(multiple, requeue)`. -/
inductive Settlement where
  | ack (multiple : Bool)
  | nack (multiple requeue : Bool)
deriving DecidableEq

/-- Outcomes of the three set-up calls of `startEventHandlers`; `declare` gives the name
the broker assigns to the queue. -/
structure ConsumerEnv where
  declare : Except Err String
  bindErr : Option Err
  consumeErr : Option Err

/-- What a run of `startEventHandlers` did: the returned error, the channel calls, the
number of messages taken from the delivery channel and the settlements in order. -/
structure ConsumerResult where
  returned : Option Err
  calls : List BrokerCall
  taken : Nat
  settled : List (Delivery × Settlement)
deriving DecidableEq

/-- The loop `for msg := range msgs` (main.go:238-248).  A delivery comes with the state of
`ctx.Done()` at the moment its `select` runs; the `select` has a `default` case, so the
cancellation case runs exactly when the signal has fired.  The list ends where the
delivery channel is closed. -/
def consumeLoop (calls : List BrokerCall) :
    List (Delivery × Bool) → Nat → List (Delivery × Settlement) → ConsumerResult
  | [], n, acc => { returned := none, calls := calls, taken := n, settled := acc }
  | (msg, done) :: rest, n, acc =>
    if done then
      { returned := none, calls := calls, taken := n + 1,
        settled := acc ++ [(msg, .nack false true)] }
    else
      consumeLoop calls rest (n + 1) (acc ++ [(msg, .ack false)])

/-- The function `startEventHandlers` (main.go:222-251). -/
def startEventHandlers (env : ConsumerEnv) (msgs : List (Delivery × Bool)) :
    ConsumerResult :=
  let declareCall := BrokerCall.queueDeclare "" false false true false
  match env.declare with
  | .error e => { returned := some e, calls := [declareCall], taken := 0, settled := [] }
  | .ok qName =>
    let bindCall := BrokerCall.queueBind qName "" "AccountCreated" false
    match env.bindErr with
    | some e =>
      { returned := some e, calls := [declareCall, bindCall], taken := 0, settled := [] }
    | none =>
      let consumeCall := BrokerCall.consume qName "" false false false false
      match env.consumeErr with
      | some e =>
        { returned := some e, calls := [declareCall, bindCall, consumeCall], taken := 0,
          settled := [] }
      | none => consumeLoop [declareCall, bindCall, consumeCall] msgs 0 []

/-! ## The `POST /accounts` handler -/

/-- A row of the `accounts` table (main.go:151). -/
structure Account where
  ID : String
  FirstName : String
  LastName : String
  Email : String
  Password : List Nat
deriving DecidableEq

/-- The committed content of the two tables. -/
structure Store where
  accounts : List Account
  outbox : List OutboxEvent
deriving DecidableEq

/-- Outcomes of the calls made by one request: binding, `ulid.Make`, bcrypt, the
transaction calls, the clocks and the identifier the store assigns to the outbox row. -/
structure RequestEnv where
  marshalStruct : AccountCreatedEvent → Except Err (List Nat)
  bind : Except Err CreateAccountRequest
  accountID : String
  hash : String → Except Err (List Nat)
  beginErr : Option Err
  insertAccountErr : Option Err
  insertOutboxErr : Option Err
  commitErr : Option Err
  now : Nat
  storeNow : Nat
  newID : Nat

/-- What the handler gives back to the router: the `201 Created` JSON response, or an error,
from which the router writes an error response. -/
inductive Response where
  | json (status : Nat) (message : String)
  | failed (err : Err)
deriving DecidableEq

/-- The response, whether `tx.Commit()` returned nil, and the committed tables. -/
structure HandlerResult where
  response : Response
  committed : Bool
  store : Store
deriving DecidableEq

/-- The account row the handler inserts (main.go:149-157). -/
def accountRow (env : RequestEnv) (body : CreateAccountRequest) (hashed : List Nat) :
    Account :=
  { ID := env.accountID, FirstName := body.FirstName, LastName := body.LastName,
    Email := body.Email, Password := hashed }

/-- The event the handler writes to the outbox (main.go:164-168). -/
def accountCreated (env : RequestEnv) (body : CreateAccountRequest) : AccountCreatedEvent :=
  { AccountID := env.accountID, Email := body.Email, CreatedAt := env.now }

/-- The handler that `startHttpService` registers for `POST /accounts` (main.go:130-180).
The transaction works on its own view of the tables; the committed tables change only
when `tx.Commit()` returns nil, and a rollback or a failed commit leaves them as they
were.  Writing the response with `c.JSON` is taken to succeed. -/
def createAccount (env : RequestEnv) (s : Store) : HandlerResult :=
  match env.bind with
  | .error e => { response := .failed e, committed := false, store := s }
  | .ok body =>
    match env.hash body.Password with
    | .error e => { response := .failed e, committed := false, store := s }
    | .ok hashedPassword =>
      match env.beginErr with
      | some e => { response := .failed e, committed := false, store := s }
      | none =>
        match env.insertAccountErr with
        | some e => { response := .failed e, committed := false, store := s }
        | none =>
          let txAccounts := s.accounts ++ [accountRow env body hashedPassword]
          match publishEventToOutbox env.marshalStruct env.insertOutboxErr env.newID
              env.storeNow "AccountCreated"
              (.accountCreatedEvent (accountCreated env body)) s.outbox with
          | (some e, _) => { response := .failed e, committed := false, store := s }
          | (none, txOutbox) =>
            match env.commitErr with
            | some e =>
              { response := .failed ("error committing transaction: " ++ e),
                committed := false, store := s }
            | none =>
              { response := .json 201 "account created successfully", committed := true,
                store := { accounts := txAccounts, outbox := txOutbox } }

/-! ## Derived descriptions of a drain call -/

/-- The message `publishEvent` sends for an outbox row: the row's name as exchange and
the marshalled payload bytes as body. -/
def message (r : OutboxEvent) : Publishing :=
  { exchange := r.Name, key := "", mandatory := false, immediate := false,
    ContentType := "application/json", Body := 34 :: base64Encode r.Payload ++ [34] }

/-- The rows of a batch, starting at position `i`, whose publish succeeds. -/
def publishedRows (env : Env) : Nat → List OutboxEvent → List OutboxEvent
  | _, [] => []
  | i, r :: rs =>
    if (env.publishErr i).isNone then r :: publishedRows env (i + 1) rs
    else publishedRows env (i + 1) rs

/-- The rows of a batch, starting at position `i`, whose publish and delete both
succeed. -/
def settledRows (env : Env) : Nat → List OutboxEvent → List OutboxEvent
  | _, [] => []
  | i, r :: rs =>
    if (env.publishErr i).isNone && (env.deleteErr i).isNone then
      r :: settledRows env (i + 1) rs
    else settledRows env (i + 1) rs

/-- The events a batch, starting at position `i`, adds to the trace. -/
def callTrace (env : Env) : Nat → List OutboxEvent → List Event
  | _, [] => []
  | i, r :: rs =>
    (if (env.publishErr i).isNone then
      [Event.published r true, Event.deleted r (env.deleteErr i).isNone]
    else [Event.published r false]) ++ callTrace env (i + 1) rs

/-- Every `DELETE` recorded in a trace, successful or not, comes after a successful publish
of the same row in that trace. -/
def DeleteAfterPublish (t : List Event) : Prop :=
  ∀ (pre : List Event) (r : OutboxEvent) (ok : Bool) (post : List Event),
    t = pre ++ Event.deleted r ok :: post → Event.published r true ∈ pre

/-- The batch read meets no error: query, iteration and scan all succeed. -/
def ReadOk (env : Env) : Prop :=
  env.queryErr = none ∧ ∀ i, env.nextErr i = none ∧ env.rowsErr i = none ∧ env.scanErr i = none

/-- Store and broker are healthy during a drain call: no call fails. -/
def Healthy (env : Env) : Prop :=
  ReadOk env ∧ ∀ i, env.publishErr i = none ∧ env.deleteErr i = none

instance : IsTotal OutboxEvent newerFirst :=
  ⟨fun a b => Nat.le_total b.PublishedAt a.PublishedAt⟩

instance : IsTrans OutboxEvent newerFirst :=
  ⟨fun _ _ _ hab hbc => Nat.le_trans hbc hab⟩

/-! ## Concrete inputs -/

/-- An environment in which no call fails; the struct encoder is not used by the
publisher. -/
def healthyEnv : Env :=
  { marshalStruct := fun _ => .ok [], queryErr := none, nextErr := fun _ => none,
    rowsErr := fun _ => none, scanErr := fun _ => none, publishErr := fun _ => none,
    deleteErr := fun _ => none }

/-- An outbox row with payload `{}`. -/
def sampleRow (id publishedAt : Nat) : OutboxEvent :=
  { ID := id, Name := "AccountCreated", Payload := [123, 125], PublishedAt := publishedAt }

/-- An account-created event. -/
def sampleEvent : AccountCreatedEvent :=
  { AccountID := "01J", Email := "a@example.com", CreatedAt := 0 }

/-- The JSON text of `sampleEvent`, with the creation time written as
`1970-01-01T00:00:00Z`. -/
def sampleEventJSON : List Nat :=
  ("\x7b\"account_id\":\"01J\",\"email\":\"a@example.com\"," ++
    "\"created_at\":\"1970-01-01T00:00:00Z\"\x7d").toList.map Char.toNat

/-- A struct encoder that returns `sampleEventJSON`. -/
def sampleMarshal : AccountCreatedEvent → Except Err (List Nat) :=
  fun _ => .ok sampleEventJSON

/-- Every step of a request succeeds: binding, hashing, `Begin`, both inserts (with the
marshalling of the event) and `Commit`. -/
def AllStepsOk (env : RequestEnv) : Prop :=
  ∃ body hashed payload, env.bind = .ok body ∧ env.hash body.Password = .ok hashed ∧
    env.beginErr = none ∧ env.insertAccountErr = none ∧
    env.marshalStruct (accountCreated env body) = .ok payload ∧
    env.insertOutboxErr = none ∧ env.commitErr = none

/-- A request environment in which every step succeeds. -/
def sampleRequestEnv : RequestEnv :=
  { marshalStruct := sampleMarshal,
    bind := .ok { Email := "a@example.com", Password := "secret", FirstName := "Ada",
                  LastName := "Lovelace" },
    accountID := "01J", hash := fun _ => .ok [36, 50, 97], beginErr := none,
    insertAccountErr := none, insertOutboxErr := none, commitErr := none, now := 0,
    storeNow := 0, newID := 1 }

/-- The delivery stream in which the cancellation signal fires after `c` messages have
been taken: the checks of the first `c` messages find `ctx.Done()` not ready, the later
ones find it ready. -/
def cancelAfter : Nat → List Delivery → List (Delivery × Bool)
  | _, [] => []
  | 0, m :: ms => (m, true) :: cancelAfter 0 ms
  | c + 1, m :: ms => (m, false) :: cancelAfter c ms

/-! ## The processing loop -/

theorem publishEvent_bytes (ms : AccountCreatedEvent → Except Err (List Nat))
    (pe : Option Err) (r : OutboxEvent) (broker : List Publishing) :
    publishEvent ms pe r.Name (.bytes r.Payload) broker =
      match pe with
      | some e => (some e, broker)
      | none => (none, broker ++ [message r]) := by
  cases pe <;> rfl

theorem processRows_nil (env : Env) (i : Nat) (w : World) :
    processRows env i [] w = w := by
  simp [processRows]

theorem processRows_cons_publishFail (env : Env) (i : Nat) (r : OutboxEvent)
    (rs : List OutboxEvent) (w : World) (e : Err) (h : env.publishErr i = some e) :
    processRows env i (r :: rs) w =
      processRows env (i + 1) rs { w with trace := w.trace ++ [.published r false] } := by
  simp [processRows, publishEvent_bytes, h]

theorem processRows_cons_deleteFail (env : Env) (i : Nat) (r : OutboxEvent)
    (rs : List OutboxEvent) (w : World) (e : Err) (hp : env.publishErr i = none)
    (hd : env.deleteErr i = some e) :
    processRows env i (r :: rs) w =
      processRows env (i + 1) rs
        { w with broker := w.broker ++ [message r],
                 trace := w.trace ++ [.published r true, .deleted r false] } := by
  simp [processRows, publishEvent_bytes, hp, hd]

theorem processRows_cons_ok (env : Env) (i : Nat) (r : OutboxEvent)
    (rs : List OutboxEvent) (w : World) (hp : env.publishErr i = none)
    (hd : env.deleteErr i = none) :
    processRows env i (r :: rs) w =
      processRows env (i + 1) rs
        { outbox := deleteByID r.ID w.outbox, broker := w.broker ++ [message r],
          trace := w.trace ++ [.published r true, .deleted r true] } := by
  simp [processRows, publishEvent_bytes, hp, hd]

/-- The three ways a loop iteration can go. -/
theorem processRows_cons_cases (env : Env) (i : Nat) (r : OutboxEvent)
    (rs : List OutboxEvent) (w : World) :
    (∃ e, env.publishErr i = some e ∧ processRows env i (r :: rs) w =
      processRows env (i + 1) rs { w with trace := w.trace ++ [.published r false] }) ∨
    (∃ e, env.publishErr i = none ∧ env.deleteErr i = some e ∧
      processRows env i (r :: rs) w = processRows env (i + 1) rs
        { w with broker := w.broker ++ [message r],
                 trace := w.trace ++ [.published r true, .deleted r false] }) ∨
    (env.publishErr i = none ∧ env.deleteErr i = none ∧
      processRows env i (r :: rs) w = processRows env (i + 1) rs
        { outbox := deleteByID r.ID w.outbox, broker := w.broker ++ [message r],
          trace := w.trace ++ [.published r true, .deleted r true] }) := by
  cases hp : env.publishErr i with
  | some e => exact Or.inl ⟨e, rfl, processRows_cons_publishFail env i r rs w e hp⟩
  | none =>
    cases hd : env.deleteErr i with
    | some e => exact Or.inr (Or.inl ⟨e, rfl, rfl, processRows_cons_deleteFail env i r rs w e hp hd⟩)
    | none => exact Or.inr (Or.inr ⟨rfl, rfl, processRows_cons_ok env i r rs w hp hd⟩)

/-- The outbox after the loop: the rows whose identifier is not that of a settled row. -/
theorem processRows_outbox (env : Env) (batch : List OutboxEvent) :
    ∀ (i : Nat) (w : World), (processRows env i batch w).outbox =
      w.outbox.filter (fun r => r.ID ∉ (settledRows env i batch).map (·.ID)) := by
  induction batch with
  | nil => intro i w; simp [processRows, settledRows]
  | cons r rs ih =>
    intro i w
    rcases processRows_cons_cases env i r rs w with ⟨e, hp, h⟩ | ⟨e, hp, hd, h⟩ | ⟨hp, hd, h⟩
    · rw [h, ih]; simp [settledRows, hp]
    · rw [h, ih]; simp [settledRows, hp, hd]
    · rw [h, ih]
      simp only [settledRows, hp, hd, deleteByID, List.filter_filter, Option.isNone_none,
        Bool.and_self, if_true, List.map_cons, List.mem_cons, not_or]
      apply List.filter_congr
      intro x _
      simp [Bool.and_comm]

/-- The broker after the loop: one message more for each row whose publish succeeded. -/
theorem processRows_broker (env : Env) (batch : List OutboxEvent) :
    ∀ (i : Nat) (w : World), (processRows env i batch w).broker =
      w.broker ++ (publishedRows env i batch).map message := by
  induction batch with
  | nil => intro i w; simp [processRows, publishedRows]
  | cons r rs ih =>
    intro i w
    rcases processRows_cons_cases env i r rs w with ⟨e, hp, h⟩ | ⟨e, hp, hd, h⟩ | ⟨hp, hd, h⟩
    · rw [h, ih]; simp [publishedRows, hp]
    · rw [h, ih]; simp [publishedRows, hp]
    · rw [h, ih]; simp [publishedRows, hp]

theorem processRows_trace (env : Env) (batch : List OutboxEvent) :
    ∀ (i : Nat) (w : World), (processRows env i batch w).trace =
      w.trace ++ callTrace env i batch := by
  induction batch with
  | nil => intro i w; simp [processRows, callTrace]
  | cons r rs ih =>
    intro i w
    rcases processRows_cons_cases env i r rs w with ⟨e, hp, h⟩ | ⟨e, hp, hd, h⟩ | ⟨hp, hd, h⟩
    · rw [h, ih]; simp [callTrace, hp]
    · rw [h, ih]; simp [callTrace, hp, hd]
    · rw [h, ih]; simp [callTrace, hp, hd]

theorem settledRows_sublist (env : Env) (batch : List OutboxEvent) :
    ∀ i : Nat, (settledRows env i batch).Sublist batch := by
  induction batch with
  | nil => intro i; simp [settledRows]
  | cons r rs ih =>
    intro i
    simp only [settledRows]
    split
    · exact (ih (i + 1)).cons₂ r
    · exact (ih (i + 1)).cons r

theorem publishedRows_sublist (env : Env) (batch : List OutboxEvent) :
    ∀ i : Nat, (publishedRows env i batch).Sublist batch := by
  induction batch with
  | nil => intro i; simp [publishedRows]
  | cons r rs ih =>
    intro i
    simp only [publishedRows]
    split
    · exact (ih (i + 1)).cons₂ r
    · exact (ih (i + 1)).cons r

/-- A settled row has a successful `DELETE` in the trace of the call. -/
theorem deleted_mem_callTrace_of_settled (env : Env) (batch : List OutboxEvent) :
    ∀ (i : Nat) (x : OutboxEvent), x ∈ settledRows env i batch →
      Event.deleted x true ∈ callTrace env i batch := by
  induction batch with
  | nil => intro i x hx; simp [settledRows] at hx
  | cons r rs ih =>
    intro i x hx
    simp only [settledRows] at hx
    simp only [callTrace]
    split at hx
    · rename_i hc
      simp only [Bool.and_eq_true] at hc
      rcases List.mem_cons.1 hx with rfl | hx
      · simp [hc.1, hc.2]
      · exact List.mem_append_right _ (ih (i + 1) x hx)
    · exact List.mem_append_right _ (ih (i + 1) x hx)

/-- With distinct identifiers in the batch, a row whose publish failed is not settled and
no settled row carries its identifier. -/
theorem not_settled_of_publish_failed (env : Env) (batch : List OutboxEvent) :
    ∀ (i : Nat) (x : OutboxEvent), (batch.map (·.ID)).Nodup →
      Event.published x false ∈ callTrace env i batch →
      x ∈ batch ∧ x.ID ∉ (settledRows env i batch).map (·.ID) := by
  induction batch with
  | nil => intro i x _ hx; simp [callTrace] at hx
  | cons r rs ih =>
    intro i x hnd hx
    have hnd' : (rs.map (·.ID)).Nodup := (List.nodup_cons.1 (by simpa using hnd)).2
    have hr : r.ID ∉ rs.map (·.ID) := (List.nodup_cons.1 (by simpa using hnd)).1
    have hsub : ∀ y ∈ settledRows env (i + 1) rs, y ∈ rs :=
      fun y hy => (settledRows_sublist env rs (i + 1)).subset hy
    simp only [callTrace] at hx
    rcases List.mem_append.1 hx with hx | hx
    · -- the failed publish is that of the head
      cases hp : env.publishErr i with
      | none => simp [hp] at hx
      | some e =>
        simp only [hp, Option.isNone_some, Bool.false_eq_true, if_false, List.mem_singleton,
          Event.published.injEq, and_true] at hx
        subst hx
        refine ⟨List.mem_cons_self _ _, ?_⟩
        simp only [settledRows, hp, Option.isNone_some, Bool.false_and, Bool.false_eq_true,
          if_false]
        intro hmem
        rcases List.mem_map.1 hmem with ⟨y, hy, hyx⟩
        exact hr (List.mem_map.2 ⟨y, hsub y hy, hyx⟩)
    · obtain ⟨hmem, hns⟩ := ih (i + 1) x hnd' hx
      refine ⟨List.mem_cons_of_mem _ hmem, ?_⟩
      have hne : x.ID ≠ r.ID := by
        intro heq
        exact hr (heq ▸ List.mem_map.2 ⟨x, hmem, rfl⟩)
      simp only [settledRows]
      split
      · simp only [List.map_cons, List.mem_cons, not_or]
        exact ⟨hne, hns⟩
      · exact hns

theorem deleteAfterPublish_nil : DeleteAfterPublish [] := by
  intro pre r ok post h
  simp at h

theorem deleteAfterPublish_snoc_published (t : List Event) (r : OutboxEvent) (b : Bool)
    (ht : DeleteAfterPublish t) : DeleteAfterPublish (t ++ [Event.published r b]) := by
  intro pre x ok post h
  rcases List.eq_nil_or_concat post with rfl | ⟨L, y, rfl⟩
  · have := List.append_inj_right' h (by simp)
    simp at this
  · have h' : t ++ [Event.published r b] = (pre ++ Event.deleted x ok :: L) ++ [y] := by
      simpa using h
    exact ht pre x ok L (List.append_inj_left' h' (by simp))

theorem deleteAfterPublish_snoc_deleted (t : List Event) (r : OutboxEvent) (b : Bool)
    (ht : DeleteAfterPublish t) (hr : Event.published r true ∈ t) :
    DeleteAfterPublish (t ++ [Event.deleted r b]) := by
  intro pre x ok post h
  rcases List.eq_nil_or_concat post with rfl | ⟨L, y, rfl⟩
  · have h1 := List.append_inj_right' h (by simp)
    have h2 := List.append_inj_left' h (by simp)
    simp only [List.cons.injEq, Event.deleted.injEq, and_true] at h1
    rw [← h2, ← h1.1]
    exact hr
  · have h' : t ++ [Event.deleted r b] = (pre ++ Event.deleted x ok :: L) ++ [y] := by
      simpa using h
    exact ht pre x ok L (List.append_inj_left' h' (by simp))

/-- The loop keeps every `DELETE` behind a successful publish of the same row. -/
theorem processRows_deleteAfterPublish (env : Env) (batch : List OutboxEvent) :
    ∀ (i : Nat) (w : World), DeleteAfterPublish w.trace →
      DeleteAfterPublish (processRows env i batch w).trace := by
  induction batch with
  | nil => intro i w hw; simpa [processRows] using hw
  | cons r rs ih =>
    intro i w hw
    rcases processRows_cons_cases env i r rs w with ⟨e, hp, h⟩ | ⟨e, hp, hd, h⟩ | ⟨hp, hd, h⟩
    · rw [h]
      exact ih _ _ (deleteAfterPublish_snoc_published _ r false hw)
    · rw [h]
      apply ih
      have h1 := deleteAfterPublish_snoc_published _ r true hw
      have h2 := deleteAfterPublish_snoc_deleted _ r false h1 (by simp)
      simpa using h2
    · rw [h]
      apply ih
      have h1 := deleteAfterPublish_snoc_published _ r true hw
      have h2 := deleteAfterPublish_snoc_deleted _ r true h1 (by simp)
      simpa using h2

/-! ## The batch read -/

theorem selectBatch_sublist_sorted (outbox : List OutboxEvent) :
    (selectBatch outbox).Sublist (outbox.insertionSort newerFirst) :=
  List.take_sublist _ _

theorem mem_of_mem_selectBatch (outbox : List OutboxEvent) (r : OutboxEvent)
    (h : r ∈ selectBatch outbox) : r ∈ outbox :=
  (List.perm_insertionSort newerFirst outbox).subset
    ((selectBatch_sublist_sorted outbox).subset h)

theorem length_selectBatch (outbox : List OutboxEvent) :
    (selectBatch outbox).length = min outbox.length 5 := by
  simp [selectBatch, List.length_take, List.length_insertionSort, Nat.min_comm]

theorem nodup_sorted_ids (outbox : List OutboxEvent) (h : (outbox.map (·.ID)).Nodup) :
    ((outbox.insertionSort newerFirst).map (·.ID)).Nodup :=
  ((List.perm_insertionSort newerFirst outbox).map _).nodup_iff.2 h

theorem nodup_selectBatch_ids (outbox : List OutboxEvent) (h : (outbox.map (·.ID)).Nodup) :
    ((selectBatch outbox).map (·.ID)).Nodup :=
  ((selectBatch_sublist_sorted outbox).map _).nodup (nodup_sorted_ids outbox h)

/-- Two rows of a table with distinct identifiers are equal when their identifiers are. -/
theorem eq_of_id_eq (outbox : List OutboxEvent) (h : (outbox.map (·.ID)).Nodup)
    (a b : OutboxEvent) (ha : a ∈ outbox) (hb : b ∈ outbox) (hab : a.ID = b.ID) : a = b :=
  List.inj_on_of_nodup_map h ha hb hab

/-- When the loop over the result set ends normally, it has collected a prefix of the
result set. -/
theorem readRows_ok_prefix (env : Env) (rs : List OutboxEvent) :
    ∀ (i : Nat) (err : Option Err) (acc l : List OutboxEvent),
      readRows env i rs err acc = .ok l → ∃ p, p <+: rs ∧ l = acc ++ p := by
  induction rs with
  | nil =>
    intro i err acc l h
    simp only [readRows, Except.ok.injEq] at h
    exact ⟨[], List.nil_prefix, by simp [h]⟩
  | cons r rs ih =>
    intro i err acc l h
    simp only [readRows] at h
    cases hn : env.nextErr i with
    | some e =>
      simp only [hn, Except.ok.injEq] at h
      exact ⟨[], List.nil_prefix, by simp [h]⟩
    | none =>
      cases hr : env.rowsErr i with
      | some e => simp [hn, hr] at h
      | none =>
        cases hs : env.scanErr i with
        | some e => simp [hn, hr, hs] at h
        | none =>
          simp only [hn, hr, hs] at h
          obtain ⟨p, hp, hl⟩ := ih (i + 1) none (acc ++ [r]) l h
          exact ⟨r :: p, (List.prefix_cons_inj r).2 hp, by simp [hl]⟩

/-- Without a read error the loop collects the whole result set. -/
theorem readRows_of_readOk (env : Env) (h : ReadOk env) (rs : List OutboxEvent) :
    ∀ (i : Nat) (err : Option Err) (acc : List OutboxEvent),
      readRows env i rs err acc = .ok (acc ++ rs) := by
  induction rs with
  | nil => intro i err acc; simp [readRows]
  | cons r rs ih =>
    intro i err acc
    simp [readRows, (h.2 i).1, (h.2 i).2.1, (h.2 i).2.2, ih]

/-- Whatever happens, the call processes a prefix of the selected batch (the empty one when
the function returns from the read phase). -/
theorem startOutboxPublisher_world (env : Env) (w : World) :
    ∃ p, p <+: selectBatch w.outbox ∧
      (startOutboxPublisher env w).2 = processRows env 0 p w := by
  unfold startOutboxPublisher
  cases hq : env.queryErr with
  | some e => exact ⟨[], List.nil_prefix, by simp [processRows]⟩
  | none =>
    cases hr : readRows env 0 (selectBatch w.outbox) none [] with
    | error v => exact ⟨[], List.nil_prefix, by simp [processRows]⟩
    | ok l =>
      obtain ⟨p, hp, hl⟩ := readRows_ok_prefix env _ 0 none [] l hr
      refine ⟨p, hp, ?_⟩
      simp [hl]

/-- Without a read error the call processes the whole selected batch and returns nil. -/
theorem startOutboxPublisher_of_readOk (env : Env) (h : ReadOk env) (w : World) :
    startOutboxPublisher env w = (none, processRows env 0 (selectBatch w.outbox) w) := by
  unfold startOutboxPublisher
  simp [h.1, readRows_of_readOk env h]

/-! ## Rows by position -/

theorem mem_settledRows_of_index (env : Env) (batch : List OutboxEvent) :
    ∀ (i j : Nat) (x : OutboxEvent), batch[j]? = some x →
      env.publishErr (i + j) = none → env.deleteErr (i + j) = none →
      x ∈ settledRows env i batch := by
  induction batch with
  | nil => intro i j x h; simp at h
  | cons r rs ih =>
    intro i j x h hp hd
    cases j with
    | zero =>
      simp only [List.getElem?_cons_zero, Option.some.injEq] at h
      subst h
      simp only [Nat.add_zero] at hp hd
      simp [settledRows, hp, hd]
    | succ j =>
      simp only [List.getElem?_cons_succ] at h
      have hp' : env.publishErr (i + 1 + j) = none := by rw [← hp]; congr 1; omega
      have hd' : env.deleteErr (i + 1 + j) = none := by rw [← hd]; congr 1; omega
      have := ih (i + 1) j x h hp' hd'
      simp only [settledRows]
      split
      · exact List.mem_cons_of_mem _ this
      · exact this

theorem index_of_mem_settledRows (env : Env) (batch : List OutboxEvent) :
    ∀ (i : Nat) (x : OutboxEvent), x ∈ settledRows env i batch →
      ∃ j, batch[j]? = some x ∧ env.publishErr (i + j) = none ∧
        env.deleteErr (i + j) = none := by
  induction batch with
  | nil => intro i x h; simp [settledRows] at h
  | cons r rs ih =>
    intro i x h
    simp only [settledRows] at h
    have tail : x ∈ settledRows env (i + 1) rs →
        ∃ j, (r :: rs)[j]? = some x ∧ env.publishErr (i + j) = none ∧
          env.deleteErr (i + j) = none := by
      intro hx
      obtain ⟨j, hj, hp, hd⟩ := ih (i + 1) x hx
      refine ⟨j + 1, by simpa using hj, ?_, ?_⟩
      · rw [← hp]; congr 1; omega
      · rw [← hd]; congr 1; omega
    split at h
    · rename_i hc
      simp only [Bool.and_eq_true, Option.isNone_iff_eq_none] at hc
      rcases List.mem_cons.1 h with rfl | hx
      · exact ⟨0, by simp, by simpa using hc.1, by simpa using hc.2⟩
      · exact tail hx
    · exact tail h

theorem mem_publishedRows_of_index (env : Env) (batch : List OutboxEvent) :
    ∀ (i j : Nat) (x : OutboxEvent), batch[j]? = some x →
      env.publishErr (i + j) = none → x ∈ publishedRows env i batch := by
  induction batch with
  | nil => intro i j x h; simp at h
  | cons r rs ih =>
    intro i j x h hp
    cases j with
    | zero =>
      simp only [List.getElem?_cons_zero, Option.some.injEq] at h
      subst h
      simp only [Nat.add_zero] at hp
      simp [publishedRows, hp]
    | succ j =>
      simp only [List.getElem?_cons_succ] at h
      have hp' : env.publishErr (i + 1 + j) = none := by rw [← hp]; congr 1; omega
      have := ih (i + 1) j x h hp'
      simp only [publishedRows]
      split
      · exact List.mem_cons_of_mem _ this
      · exact this

theorem published_mem_callTrace_of_index (env : Env) (batch : List OutboxEvent) :
    ∀ (i j : Nat) (x : OutboxEvent), batch[j]? = some x →
      env.publishErr (i + j) = none → Event.published x true ∈ callTrace env i batch := by
  induction batch with
  | nil => intro i j x h; simp at h
  | cons r rs ih =>
    intro i j x h hp
    cases j with
    | zero =>
      simp only [List.getElem?_cons_zero, Option.some.injEq] at h
      subst h
      simp only [Nat.add_zero] at hp
      simp [callTrace, hp]
    | succ j =>
      simp only [List.getElem?_cons_succ] at h
      have hp' : env.publishErr (i + 1 + j) = none := by rw [← hp]; congr 1; omega
      simp only [callTrace]
      exact List.mem_append_right _ (ih (i + 1) j x h hp')

/-- In a batch with distinct identifiers, two positions holding rows with the same
identifier are the same position. -/
theorem index_eq_of_id_eq (batch : List OutboxEvent) (h : (batch.map (·.ID)).Nodup)
    (j k : Nat) (x y : OutboxEvent) (hj : batch[j]? = some x) (hk : batch[k]? = some y)
    (hxy : x.ID = y.ID) : j = k := by
  have hjl : j < (batch.map (·.ID)).length := by
    have := (List.getElem?_eq_some_iff.1 hj).1
    simpa using this
  have e1 : (batch.map (·.ID))[j]? = some x.ID := by simp [List.getElem?_map, hj]
  have e2 : (batch.map (·.ID))[k]? = some x.ID := by simp [List.getElem?_map, hk, hxy]
  exact List.getElem?_inj hjl h (e1.trans e2.symm)

/-! ## Claims about `startOutboxPublisher` -/

/-- C2. In one call of `startOutboxPublisher`, on any outbox (identifiers distinct, as the
primary key makes them) and for any pattern of read, publish and delete outcomes: every
`DELETE` of the call comes after a successful publish of the same row in that call; a row
that left the outbox was published successfully before its `DELETE`; a row whose publish
failed is still in the outbox; and a row outside the selected batch is still in the
outbox. -/
theorem delete_only_after_publish (env : Env) (outbox : List OutboxEvent)
    (broker : List Publishing) (hid : (outbox.map (·.ID)).Nodup) :
    let res := (startOutboxPublisher env ⟨outbox, broker, []⟩).2
    (∀ (pre : List Event) (r : OutboxEvent) (ok : Bool) (post : List Event),
      res.trace = pre ++ Event.deleted r ok :: post → Event.published r true ∈ pre) ∧
    (∀ r ∈ outbox, r ∉ res.outbox →
      ∃ pre post, res.trace = pre ++ Event.deleted r true :: post ∧
        Event.published r true ∈ pre) ∧
    (∀ r, Event.published r false ∈ res.trace → r ∈ res.outbox) ∧
    (∀ r ∈ outbox, r ∉ selectBatch outbox → r ∈ res.outbox) := by
  intro res
  obtain ⟨p, hp, hres⟩ := startOutboxPublisher_world env ⟨outbox, broker, []⟩
  have hres' : res = processRows env 0 p ⟨outbox, broker, []⟩ := hres
  have hpsub : ∀ x ∈ p, x ∈ selectBatch outbox := fun x hx => hp.subset hx
  have hpout : ∀ x ∈ p, x ∈ outbox := fun x hx => mem_of_mem_selectBatch outbox x (hpsub x hx)
  have hpnd : (p.map (·.ID)).Nodup :=
    (hp.sublist.map _).nodup (nodup_selectBatch_ids outbox hid)
  have hdap : DeleteAfterPublish res.trace := by
    rw [hres']
    exact processRows_deleteAfterPublish env p 0 _ deleteAfterPublish_nil
  have hout : res.outbox = outbox.filter (fun r => r.ID ∉ (settledRows env 0 p).map (·.ID)) := by
    rw [hres', processRows_outbox]
  have htr : res.trace = callTrace env 0 p := by
    rw [hres', processRows_trace]; simp
  refine ⟨hdap, ?_, ?_, ?_⟩
  · intro r hr hgone
    have hmem : r.ID ∈ (settledRows env 0 p).map (·.ID) := by
      by_contra hcon
      exact hgone (by rw [hout]; exact List.mem_filter.2 ⟨hr, by simpa using hcon⟩)
    obtain ⟨s, hs, hsr⟩ := List.mem_map.1 hmem
    have hsp : s ∈ p := (settledRows_sublist env p 0).subset hs
    have hsr' : s = r := eq_of_id_eq outbox hid s r (hpout s hsp) hr hsr
    subst hsr'
    have hdel : Event.deleted s true ∈ res.trace := by
      rw [htr]; exact deleted_mem_callTrace_of_settled env p 0 s hs
    obtain ⟨pre, post, hsplit⟩ := List.append_of_mem hdel
    exact ⟨pre, post, hsplit, hdap pre s true post hsplit⟩
  · intro r hr
    rw [htr] at hr
    obtain ⟨hrp, hns⟩ := not_settled_of_publish_failed env p 0 r hpnd hr
    rw [hout]
    exact List.mem_filter.2 ⟨hpout r hrp, by simpa using hns⟩
  · intro r hr hnb
    rw [hout]
    refine List.mem_filter.2 ⟨hr, ?_⟩
    have : r.ID ∉ (settledRows env 0 p).map (·.ID) := by
      intro hmem
      obtain ⟨s, hs, hsr⟩ := List.mem_map.1 hmem
      have hsp : s ∈ p := (settledRows_sublist env p 0).subset hs
      have hsr' : s = r := eq_of_id_eq outbox hid s r (hpout s hsp) hr hsr
      exact hnb (hsr' ▸ hpsub s hsp)
    simpa using this

/-- Witness of C2: two rows, the publish of the newer one fails; it stays in the outbox. -/
theorem delete_only_after_publish_witness :
    (([sampleRow 1 10, sampleRow 2 20].map (·.ID)).Nodup) ∧
    (∀ r, Event.published r false ∈
        (startOutboxPublisher
          { healthyEnv with publishErr := fun i => if i = 0 then some "broker down" else none }
          ⟨[sampleRow 1 10, sampleRow 2 20], [], []⟩).2.trace →
      r ∈ (startOutboxPublisher
          { healthyEnv with publishErr := fun i => if i = 0 then some "broker down" else none }
          ⟨[sampleRow 1 10, sampleRow 2 20], [], []⟩).2.outbox) :=
  ⟨by decide,
   (delete_only_after_publish
      { healthyEnv with publishErr := fun i => if i = 0 then some "broker down" else none }
      [sampleRow 1 10, sampleRow 2 20] [] (by decide)).2.2.1⟩

/-- C3. Per-row isolation.  With the batch read successfully and distinct identifiers: if
the publish or the delete of the row at position `k` of the batch fails while both succeed
at every other position, then the call returns nil, every other row of the batch is
published (its message reaches the broker) and deleted, and row `k` is still in the
outbox. -/
theorem per_row_isolation (env : Env) (outbox : List OutboxEvent)
    (broker : List Publishing) (k : Nat) (hid : (outbox.map (·.ID)).Nodup)
    (hread : ReadOk env) (hk : k < (selectBatch outbox).length)
    (hfail : env.publishErr k ≠ none ∨ env.deleteErr k ≠ none)
    (hothers : ∀ j, j ≠ k → env.publishErr j = none ∧ env.deleteErr j = none) :
    let res := startOutboxPublisher env ⟨outbox, broker, []⟩
    res.1 = none ∧
    (∀ (j : Nat) (r : OutboxEvent), j ≠ k → (selectBatch outbox)[j]? = some r →
      Event.published r true ∈ res.2.trace ∧ message r ∈ res.2.broker ∧
      Event.deleted r true ∈ res.2.trace ∧ r ∉ res.2.outbox) ∧
    (∀ r, (selectBatch outbox)[k]? = some r → r ∈ res.2.outbox) := by
  intro res
  have hres : res = (none, processRows env 0 (selectBatch outbox) ⟨outbox, broker, []⟩) :=
    startOutboxPublisher_of_readOk env hread _
  have hnd := nodup_selectBatch_ids outbox hid
  rw [hres]
  refine ⟨rfl, ?_, ?_⟩
  · intro j r hj hr
    obtain ⟨hp, hd⟩ := hothers j hj
    have hp0 : env.publishErr (0 + j) = none := by simpa using hp
    have hd0 : env.deleteErr (0 + j) = none := by simpa using hd
    have hs := mem_settledRows_of_index env _ 0 j r hr hp0 hd0
    simp only [processRows_trace, processRows_broker, processRows_outbox, List.nil_append]
    refine ⟨published_mem_callTrace_of_index env _ 0 j r hr hp0,
      List.mem_append_right _ (List.mem_map.2 ⟨r, mem_publishedRows_of_index env _ 0 j r hr hp0, rfl⟩),
      deleted_mem_callTrace_of_settled env _ 0 r hs, ?_⟩
    intro hmem
    have := (List.mem_filter.1 hmem).2
    simp only [decide_eq_true_eq] at this
    exact this (List.mem_map.2 ⟨r, hs, rfl⟩)
  · intro r hr
    simp only [processRows_outbox]
    have hrb : r ∈ selectBatch outbox := List.getElem?_mem hr
    refine List.mem_filter.2 ⟨mem_of_mem_selectBatch outbox r hrb, ?_⟩
    simp only [decide_eq_true_eq]
    intro hmem
    obtain ⟨s, hs, hsr⟩ := List.mem_map.1 hmem
    obtain ⟨j, hj, hp, hd⟩ := index_of_mem_settledRows env _ 0 s hs
    have hjk : j = k := index_eq_of_id_eq _ hnd j k s r hj hr hsr
    subst hjk
    simp only [Nat.zero_add] at hp hd
    rcases hfail with h | h
    · exact h hp
    · exact h hd

/-- Witness of C3: three rows, the delete of the row at position 1 of the batch (the row
with identifier 2) fails; that row stays in the outbox. -/
theorem per_row_isolation_witness :
    (([sampleRow 1 10, sampleRow 2 20, sampleRow 3 30].map (·.ID)).Nodup) ∧
    sampleRow 2 20 ∈ (startOutboxPublisher
        { healthyEnv with deleteErr := fun i => if i = 1 then some "store down" else none }
        ⟨[sampleRow 1 10, sampleRow 2 20, sampleRow 3 30], [], []⟩).2.outbox :=
  ⟨by decide,
   (per_row_isolation
      { healthyEnv with deleteErr := fun i => if i = 1 then some "store down" else none }
      [sampleRow 1 10, sampleRow 2 20, sampleRow 3 30] [] 1 (by decide)
      ⟨rfl, fun _ => ⟨rfl, rfl, rfl⟩⟩ (by decide) (Or.inr (by decide))
      (fun j hj => ⟨rfl, by simp [healthyEnv, hj]⟩)).2.2 (sampleRow 2 20) (by decide)⟩

/-! ## Draining under a healthy store and broker -/

theorem settledRows_of_healthy (env : Env) (h : Healthy env) (batch : List OutboxEvent) :
    ∀ i : Nat, settledRows env i batch = batch := by
  induction batch with
  | nil => intro i; simp [settledRows]
  | cons r rs ih => intro i; simp [settledRows, (h.2 i).1, (h.2 i).2, ih]

theorem publishedRows_of_healthy (env : Env) (h : Healthy env) (batch : List OutboxEvent) :
    ∀ i : Nat, publishedRows env i batch = batch := by
  induction batch with
  | nil => intro i; simp [publishedRows]
  | cons r rs ih => intro i; simp [publishedRows, (h.2 i).1, ih]

/-- Removing the selected batch by identifier leaves a rearrangement of the rows behind
the first five of the sorted table. -/
theorem filter_batch_perm (outbox : List OutboxEvent) (hid : (outbox.map (·.ID)).Nodup) :
    (outbox.filter (fun r => r.ID ∉ (selectBatch outbox).map (·.ID))).Perm
      ((outbox.insertionSort newerFirst).drop 5) := by
  have hperm := (List.perm_insertionSort newerFirst outbox).symm
  have hnd := nodup_sorted_ids outbox hid
  refine (hperm.filter _).trans ?_
  have hsplit : outbox.insertionSort newerFirst =
      selectBatch outbox ++ (outbox.insertionSort newerFirst).drop 5 :=
    (List.take_append_drop 5 _).symm
  have hdisj : ∀ x ∈ (outbox.insertionSort newerFirst).drop 5,
      x.ID ∉ (selectBatch outbox).map (·.ID) := by
    intro x hx hmem
    rw [hsplit, List.map_append] at hnd
    exact (List.nodup_append.1 hnd).2.2 hmem (List.mem_map.2 ⟨x, hx, rfl⟩)
  conv_lhs => rw [hsplit]
  rw [List.filter_append]
  have h1 : (selectBatch outbox).filter
      (fun r => decide (r.ID ∉ (selectBatch outbox).map (·.ID))) = [] := by
    rw [List.filter_eq_nil_iff]
    intro x hx
    simpa using List.mem_map.2 ⟨x, hx, rfl⟩
  have h2 : ((outbox.insertionSort newerFirst).drop 5).filter
      (fun r => decide (r.ID ∉ (selectBatch outbox).map (·.ID))) =
      (outbox.insertionSort newerFirst).drop 5 := by
    rw [List.filter_eq_self]
    intro x hx
    simpa using hdisj x hx
  rw [h1, h2]
  simp

/-- One healthy drain: the error, the broker and the outbox afterwards. -/
theorem startOutboxPublisher_of_healthy (env : Env) (h : Healthy env) (w : World) :
    (startOutboxPublisher env w).1 = none ∧
    (startOutboxPublisher env w).2.broker = w.broker ++ (selectBatch w.outbox).map message ∧
    (startOutboxPublisher env w).2.outbox =
      w.outbox.filter (fun r => r.ID ∉ (selectBatch w.outbox).map (·.ID)) := by
  rw [startOutboxPublisher_of_readOk env h.1]
  simp [processRows_broker, processRows_outbox, settledRows_of_healthy env h,
    publishedRows_of_healthy env h]

theorem length_after_healthy (env : Env) (h : Healthy env) (w : World)
    (hid : (w.outbox.map (·.ID)).Nodup) :
    (startOutboxPublisher env w).2.outbox.length = w.outbox.length - 5 := by
  rw [(startOutboxPublisher_of_healthy env h w).2.2, (filter_batch_perm w.outbox hid).length_eq]
  simp [List.length_insertionSort]

theorem nodup_after_healthy (env : Env) (h : Healthy env) (w : World)
    (hid : (w.outbox.map (·.ID)).Nodup) :
    ((startOutboxPublisher env w).2.outbox.map (·.ID)).Nodup := by
  rw [(startOutboxPublisher_of_healthy env h w).2.2]
  exact ((List.filter_sublist _).map _).nodup hid

/-- A run of `t` ticks with no cancellation, every drain healthy: the loop is still
running, it has drained `t` times and the outbox has lost up to `5 * t` rows. -/
theorem schedulerLoop_ticks (envs : Nat → Env) (h : ∀ n, Healthy (envs n)) (t : Nat) :
    ∀ (n c : Nat) (w : World), (w.outbox.map (·.ID)).Nodup →
      (schedulerLoop envs (List.replicate t Wake.tickOnly) n c w).returned = none ∧
      (schedulerLoop envs (List.replicate t Wake.tickOnly) n c w).drains = n + t ∧
      (schedulerLoop envs (List.replicate t Wake.tickOnly) n c w).world.outbox.length =
        w.outbox.length - 5 * t := by
  induction t with
  | zero => intro n c w _; simp [schedulerLoop]
  | succ t ih =>
    intro n c w hid
    have h1 := (startOutboxPublisher_of_healthy (envs n) (h n) w).1
    have hl := length_after_healthy (envs n) (h n) w hid
    have hn := nodup_after_healthy (envs n) (h n) w hid
    rcases hsp : startOutboxPublisher (envs n) w with ⟨e, w'⟩
    rw [hsp] at h1 hl hn
    simp only at h1 hl hn
    subst h1
    obtain ⟨a, b, d⟩ := ih (n + 1) c w' hn
    simp only [List.replicate_succ, schedulerLoop, Wake.runsTick, if_true, hsp, Wake.cancelled,
      Bool.false_eq_true, if_false]
    refine ⟨a, by rw [b]; omega, by rw [d, hl]; omega⟩

theorem healthy_healthyEnv : Healthy healthyEnv :=
  ⟨⟨rfl, fun _ => ⟨rfl, rfl, rfl⟩⟩, fun _ => ⟨rfl, rfl⟩⟩

/-- C10. Draining under a healthy store and broker.  For an outbox of `n` rows with distinct
identifiers, when no call fails, one call of `startOutboxPublisher` returns nil, adds to
the broker exactly the messages of the selected rows, `min n 5` of them, and leaves
`n - min n 5` rows; an outbox of at most 5 rows is empty afterwards, and after
`(n + 4) / 5` ticks of the scheduler the outbox is empty. -/
theorem drain_healthy (envs : Nat → Env) (outbox : List OutboxEvent)
    (broker : List Publishing) (hid : (outbox.map (·.ID)).Nodup)
    (h : ∀ n, Healthy (envs n)) :
    let res := startOutboxPublisher (envs 0) ⟨outbox, broker, []⟩
    res.1 = none ∧
    res.2.broker = broker ++ (selectBatch outbox).map message ∧
    ((selectBatch outbox).map message).length = min outbox.length 5 ∧
    res.2.outbox.length = outbox.length - min outbox.length 5 ∧
    (outbox.length ≤ 5 → res.2.outbox = []) ∧
    (startOutboxPublisherScheduler envs
      (List.replicate ((outbox.length + 4) / 5) Wake.tickOnly)
      ⟨outbox, broker, []⟩).world.outbox = [] := by
  intro res
  have hh := startOutboxPublisher_of_healthy (envs 0) (h 0) ⟨outbox, broker, []⟩
  have hl : res.2.outbox.length = outbox.length - 5 :=
    length_after_healthy (envs 0) (h 0) ⟨outbox, broker, []⟩ hid
  refine ⟨hh.1, hh.2.1, by simp [length_selectBatch], by rw [hl]; omega, ?_, ?_⟩
  · intro hn
    apply List.eq_nil_of_length_eq_zero
    rw [hl]; omega
  · apply List.eq_nil_of_length_eq_zero
    unfold startOutboxPublisherScheduler
    rw [(schedulerLoop_ticks envs h _ 0 0 ⟨outbox, broker, []⟩ hid).2.2]
    simp only
    omega

/-- Witness of C10: six rows are drained by two healthy ticks. -/
theorem drain_healthy_witness :
    (([sampleRow 1 10, sampleRow 2 20, sampleRow 3 30, sampleRow 4 40, sampleRow 5 50,
        sampleRow 6 60].map (·.ID)).Nodup) ∧
    (∀ n : Nat, Healthy ((fun _ => healthyEnv) n)) ∧
    (startOutboxPublisherScheduler (fun _ => healthyEnv)
      (List.replicate 2 Wake.tickOnly)
      ⟨[sampleRow 1 10, sampleRow 2 20, sampleRow 3 30, sampleRow 4 40, sampleRow 5 50,
        sampleRow 6 60], [], []⟩).world.outbox = [] :=
  ⟨by decide, fun _ => healthy_healthyEnv,
   (drain_healthy (fun _ => healthyEnv)
      [sampleRow 1 10, sampleRow 2 20, sampleRow 3 30, sampleRow 4 40, sampleRow 5 50,
        sampleRow 6 60] [] (by decide) (fun _ => healthy_healthyEnv)).2.2.2.2.2⟩

/-! ## The body of the published message -/

theorem length_le_length_base64Encode : ∀ b : List Nat, b.length ≤ (base64Encode b).length
  | [] => by simp [base64Encode]
  | [_] => by simp [base64Encode]
  | [_, _] => by simp [base64Encode]
  | _ :: _ :: _ :: rest => by
    have := length_le_length_base64Encode rest
    simp only [base64Encode, List.length_cons]
    omega

/-- Whatever payload a row stores, the body `publishEvent` sends for it differs from the
payload: it is the payload in base64 between two quotation marks. -/
theorem message_body_ne_payload (r : OutboxEvent) : (message r).Body ≠ r.Payload := by
  intro h
  have hlen := congrArg List.length h
  have := length_le_length_base64Encode r.Payload
  simp only [message, List.length_cons, List.length_append, List.length_nil] at hlen
  omega

/-- Every message a drain call adds to the broker carries a body that differs from the
stored payload of each row of the outbox it was read from, as soon as the batch was read
without error and the publish succeeded. -/
theorem published_body_ne_payload (env : Env) (h : Healthy env) (w : World)
    (r : OutboxEvent) (hr : r ∈ selectBatch w.outbox) :
    message r ∈ (startOutboxPublisher env w).2.broker ∧ (message r).Body ≠ r.Payload := by
  refine ⟨?_, message_body_ne_payload r⟩
  rw [(startOutboxPublisher_of_healthy env h w).2.1]
  exact List.mem_append_right _ (List.mem_map.2 ⟨r, hr, rfl⟩)

/-- C1 (evaluation at the failing input).  The event `sampleEvent` is written to an empty
outbox by `publishEventToOutbox`; the stored payload is its JSON text.  A healthy call of
`startOutboxPublisher` then publishes one message whose body is not that payload but the
JSON string holding its base64 encoding, `"eyJhY2NvdW50X2lkIjoi..."`. -/
theorem outbox_body_is_base64_of_payload :
    (publishEventToOutbox sampleMarshal none 1 0 "AccountCreated"
        (.accountCreatedEvent sampleEvent) []).2.map (·.Payload) = [sampleEventJSON] ∧
    (startOutboxPublisher healthyEnv
        ⟨(publishEventToOutbox sampleMarshal none 1 0 "AccountCreated"
          (.accountCreatedEvent sampleEvent) []).2, [], []⟩).2.broker.map (·.Body) =
      [("\"eyJhY2NvdW50X2lkIjoiMDFKIiwiZW1haWwiOiJhQGV4YW1wbGUuY29tIiwiY3JlYXRlZF9hdCI6" ++
        "IjE5NzAtMDEtMDFUMDA6MDA6MDBaIn0=\"").toList.map Char.toNat] ∧
    (startOutboxPublisher healthyEnv
        ⟨(publishEventToOutbox sampleMarshal none 1 0 "AccountCreated"
          (.accountCreatedEvent sampleEvent) []).2, [], []⟩).2.broker.map (·.Body) ≠
      [sampleEventJSON] := by
  decide

/-! ## Which errors `startOutboxPublisher` returns -/

/-- A failed query is returned to the caller and nothing is published or deleted. -/
theorem startOutboxPublisher_of_queryErr (env : Env) (w : World) (e : Err)
    (h : env.queryErr = some e) : startOutboxPublisher env w = (some e, w) := by
  simp [startOutboxPublisher, h]

/-- The variable `err` is nil whenever the loop over the result set consults it, so the
early return of main.go:282 returns nil: the only non-nil value the loop returns is a scan
error. -/
theorem readRows_error_is_scanErr (env : Env) (rs : List OutboxEvent) :
    ∀ (i : Nat) (acc : List OutboxEvent) (e : Err),
      readRows env i rs none acc = .error (some e) → ∃ j, env.scanErr j = some e := by
  induction rs with
  | nil => intro i acc e h; simp [readRows] at h
  | cons r rs ih =>
    intro i acc e h
    simp only [readRows] at h
    cases hn : env.nextErr i with
    | some x => simp [hn] at h
    | none =>
      cases hr : env.rowsErr i with
      | some x => simp [hn, hr] at h
      | none =>
        cases hs : env.scanErr i with
        | some x =>
          simp only [hn, hr, hs, Except.error.injEq, Option.some.injEq] at h
          exact ⟨i, by rw [hs, h]⟩
        | none =>
          simp only [hn, hr, hs] at h
          exact ih (i + 1) _ e h

/-- When the query succeeds and no scan fails, the call returns nil, whatever errors the
iteration of the result set meets and whatever the publish and delete outcomes are. -/
theorem startOutboxPublisher_nil_of_no_scanErr (env : Env) (w : World)
    (hq : env.queryErr = none) (hs : ∀ i, env.scanErr i = none) :
    (startOutboxPublisher env w).1 = none := by
  unfold startOutboxPublisher
  simp only [hq]
  cases hr : readRows env 0 (selectBatch w.outbox) none [] with
  | ok l => rfl
  | error v =>
    cases v with
    | none => rfl
    | some e =>
      obtain ⟨j, hj⟩ := readRows_error_is_scanErr env _ 0 [] e hr
      rw [hs j] at hj
      cases hj

/-- C4 (evaluation at the failing input).  Two rows are selected.  When `rows.Next()` fails
with an error on the second row, the call publishes and deletes the first row and returns
nil; when `rows.Err()` is non-nil inside the loop body on the first row, the call returns
nil without publishing anything.  In both cases the batch read failed and no error
reaches the caller. -/
theorem iteration_error_returns_nil :
    startOutboxPublisher
        { healthyEnv with nextErr := fun i => if i = 1 then some "connection reset" else none }
        ⟨[sampleRow 1 10, sampleRow 2 20], [], []⟩ =
      (none, ⟨[sampleRow 1 10], [message (sampleRow 2 20)],
        [Event.published (sampleRow 2 20) true, Event.deleted (sampleRow 2 20) true]⟩) ∧
    startOutboxPublisher
        { healthyEnv with rowsErr := fun i => if i = 0 then some "context canceled" else none }
        ⟨[sampleRow 1 10, sampleRow 2 20], [], []⟩ =
      (none, ⟨[sampleRow 1 10, sampleRow 2 20], [], []⟩) := by
  decide

/-! ## The order of the batch -/

/-- The batch is ordered newest first. -/
theorem selectBatch_sorted (outbox : List OutboxEvent) :
    (selectBatch outbox).Sorted newerFirst :=
  (List.sorted_insertionSort newerFirst outbox).sublist (selectBatch_sublist_sorted outbox)

/-- No row left out of the batch is newer than a row of the batch. -/
theorem selectBatch_newest (outbox : List OutboxEvent) (s u : OutboxEvent)
    (hs : s ∈ selectBatch outbox) (hu : u ∈ (outbox.insertionSort newerFirst).drop 5) :
    u.PublishedAt ≤ s.PublishedAt := by
  have hsorted := List.sorted_insertionSort newerFirst outbox
  rw [← List.take_append_drop 5 (outbox.insertionSort newerFirst)] at hsorted
  exact (List.pairwise_append.1 hsorted).2.2 s hs u hu

/-- C5 (evaluation at the failing input).  Six rows with `published_at` 10, 20, ..., 60: the
batch holds the five newest rows, newest first, and leaves out the oldest row (identifier
1), although it is older than every selected row; rows are processed in that order. -/
theorem selectBatch_takes_newest :
    (selectBatch [sampleRow 1 10, sampleRow 2 20, sampleRow 3 30, sampleRow 4 40,
        sampleRow 5 50, sampleRow 6 60]).map (·.ID) = [6, 5, 4, 3, 2] ∧
    sampleRow 1 10 ∉ selectBatch [sampleRow 1 10, sampleRow 2 20, sampleRow 3 30,
        sampleRow 4 40, sampleRow 5 50, sampleRow 6 60] ∧
    (∀ s ∈ selectBatch [sampleRow 1 10, sampleRow 2 20, sampleRow 3 30, sampleRow 4 40,
        sampleRow 5 50, sampleRow 6 60], (sampleRow 1 10).PublishedAt < s.PublishedAt) ∧
    (startOutboxPublisher healthyEnv
        ⟨[sampleRow 1 10, sampleRow 2 20, sampleRow 3 30, sampleRow 4 40, sampleRow 5 50,
          sampleRow 6 60], [], []⟩).2.outbox = [sampleRow 1 10] := by
  decide

/-! ## Account creation -/

/-- C6. Atomicity of account creation.  For every request environment and committed tables:
the handler responds `201 Created` exactly when `tx.Commit()` returned nil, which happens
exactly when every step succeeded; in that case the committed tables gain one account row
and one outbox row named `"AccountCreated"` whose payload is the marshalled event, and in
every other case the committed tables are unchanged. -/
theorem createAccount_atomic (env : RequestEnv) (s : Store) :
    ((∃ m, (createAccount env s).response = .json 201 m) ↔
      (createAccount env s).committed = true) ∧
    ((createAccount env s).committed = true ↔ AllStepsOk env) ∧
    ((createAccount env s).committed = true →
      ∃ body hashed payload, env.bind = .ok body ∧ env.hash body.Password = .ok hashed ∧
        env.marshalStruct (accountCreated env body) = .ok payload ∧
        (createAccount env s).store =
          { accounts := s.accounts ++ [accountRow env body hashed],
            outbox := s.outbox ++ [{ ID := env.newID, Name := "AccountCreated",
                                     Payload := payload, PublishedAt := env.storeNow }] }) ∧
    ((createAccount env s).committed = false → (createAccount env s).store = s) := by
  unfold AllStepsOk createAccount publishEventToOutbox jsonMarshal
  cases hb : env.bind with
  | error e => simp
  | ok body =>
    cases hh : env.hash body.Password with
    | error e => simp [hh]
    | ok hashed =>
      cases hbe : env.beginErr with
      | some e => simp [hh]
      | none =>
        cases hia : env.insertAccountErr with
        | some e => simp [hh]
        | none =>
          cases hm : env.marshalStruct (accountCreated env body) with
          | error e => simp [hh, hm]
          | ok payload =>
            cases hio : env.insertOutboxErr with
            | some e => simp [hh, hm]
            | none =>
              cases hc : env.commitErr with
              | some e => simp [hh, hm]
              | none => simp [hh, hm]

/-- The handler on `sampleRequestEnv` and empty tables: `201 Created`, one account row and
one outbox row named `"AccountCreated"`. -/
theorem createAccount_sample :
    (createAccount sampleRequestEnv ⟨[], []⟩).response =
      .json 201 "account created successfully" ∧
    (createAccount sampleRequestEnv ⟨[], []⟩).store.accounts.length = 1 ∧
    (createAccount sampleRequestEnv ⟨[], []⟩).store.outbox =
      [{ ID := 1, Name := "AccountCreated", Payload := sampleEventJSON, PublishedAt := 0 }] := by
  decide

/-! ## The scheduler -/

/-- Running the loop over `pre ++ rest` is running it over `pre` and, if it has not
returned, going on over `rest`. -/
theorem schedulerLoop_append (envs : Nat → Env) (pre rest : List Wake) :
    ∀ (n c : Nat) (w : World),
      schedulerLoop envs (pre ++ rest) n c w =
        if (schedulerLoop envs pre n c w).returned = none then
          schedulerLoop envs rest (schedulerLoop envs pre n c w).drains
            (schedulerLoop envs pre n c w).drainsAfterCancel
            (schedulerLoop envs pre n c w).world
        else schedulerLoop envs pre n c w := by
  induction pre with
  | nil => intro n c w; simp [schedulerLoop]
  | cons k ks ih =>
    intro n c w
    simp only [List.cons_append, schedulerLoop]
    cases hk : k.runsTick with
    | false => simp
    | true =>
      simp only [if_true]
      rcases hsp : startOutboxPublisher (envs n) w with ⟨e, w'⟩
      cases e with
      | some e => simp
      | none => exact ih _ _ _

/-- C7 (counterexample).  The cancellation signal has fired and a tick is pending at the same
check; the `select` takes the tick case, the scheduler calls `startOutboxPublisher` once
more, the query fails on the cancelled context, and the scheduler returns that error
instead of nil. -/
theorem scheduler_may_drain_after_cancel :
    (Wake.both true).cancelled = true ∧
    (startOutboxPublisherScheduler
        (fun _ => { healthyEnv with queryErr := some "context canceled" })
        [Wake.both true] ⟨[sampleRow 1 10], [], []⟩).drainsAfterCancel = 1 ∧
    (startOutboxPublisherScheduler
        (fun _ => { healthyEnv with queryErr := some "context canceled" })
        [Wake.both true] ⟨[sampleRow 1 10], [], []⟩).returned =
      some (some "context canceled") := by
  decide

/-- C7 (amended).  Let the scheduler still be running after the wake-ups `pre`.  If at the
next check the `select` takes the cancellation case, which it does whenever no tick is
pending, then the cancellation signal has fired, the scheduler returns nil, and it makes
no further call of `startOutboxPublisher`: the drain counts and the world are those
reached after `pre`, whatever wake-ups would follow. -/
theorem scheduler_exits_when_cancel_selected (envs : Nat → Env) (pre rest : List Wake)
    (k : Wake) (w : World)
    (hrun : (startOutboxPublisherScheduler envs pre w).returned = none)
    (hsel : k.tickPending = false ∨ k.runsTick = false) :
    k.cancelled = true ∧
    (startOutboxPublisherScheduler envs (pre ++ k :: rest) w).returned = some none ∧
    (startOutboxPublisherScheduler envs (pre ++ k :: rest) w).drains =
      (startOutboxPublisherScheduler envs pre w).drains ∧
    (startOutboxPublisherScheduler envs (pre ++ k :: rest) w).drainsAfterCancel =
      (startOutboxPublisherScheduler envs pre w).drainsAfterCancel ∧
    (startOutboxPublisherScheduler envs (pre ++ k :: rest) w).world =
      (startOutboxPublisherScheduler envs pre w).world := by
  have hk : k.runsTick = false := by
    rcases hsel with h | h
    · cases k <;> simp_all [Wake.tickPending, Wake.runsTick]
    · exact h
  have hc : k.cancelled = true := by
    cases k <;> simp_all [Wake.cancelled, Wake.runsTick]
  unfold startOutboxPublisherScheduler at hrun ⊢
  rw [schedulerLoop_append, if_pos hrun]
  simp [schedulerLoop, hk, hc]

/-- Witness of C7 (amended): one healthy tick, then cancellation with no tick pending. -/
theorem scheduler_exits_when_cancel_selected_witness :
    (startOutboxPublisherScheduler (fun _ => healthyEnv) [Wake.tickOnly]
        ⟨[sampleRow 1 10], [], []⟩).returned = none ∧
    (startOutboxPublisherScheduler (fun _ => healthyEnv)
        ([Wake.tickOnly] ++ Wake.cancelOnly :: [Wake.tickOnly])
        ⟨[sampleRow 1 10], [], []⟩).returned = some none ∧
    (startOutboxPublisherScheduler (fun _ => healthyEnv)
        ([Wake.tickOnly] ++ Wake.cancelOnly :: [Wake.tickOnly])
        ⟨[sampleRow 1 10], [], []⟩).drains = 1 :=
  ⟨by decide,
   (scheduler_exits_when_cancel_selected (fun _ => healthyEnv) [Wake.tickOnly]
      [Wake.tickOnly] Wake.cancelOnly ⟨[sampleRow 1 10], [], []⟩ (by decide)
      (Or.inl rfl)).2.1,
   by decide⟩

/-! ## The consumer -/

theorem consumeLoop_cancelAfter (calls : List BrokerCall) (msgs : List Delivery) :
    ∀ (c n : Nat) (acc : List (Delivery × Settlement)),
      consumeLoop calls (cancelAfter c msgs) n acc =
        { returned := none, calls := calls, taken := n + min (c + 1) msgs.length,
          settled := acc ++ (msgs.take c).map (fun m => (m, Settlement.ack false)) ++
            ((msgs.drop c).take 1).map (fun m => (m, Settlement.nack false true)) } := by
  induction msgs with
  | nil => intro c n acc; cases c <;> simp [cancelAfter, consumeLoop]
  | cons m ms ih =>
    intro c n acc
    cases c with
    | zero => simp [cancelAfter, consumeLoop]
    | succ c =>
      simp only [cancelAfter, consumeLoop, Bool.false_eq_true, if_false, ih,
        List.length_cons, List.take_succ_cons, List.map_cons, List.drop_succ_cons,
        List.append_assoc, List.singleton_append, ConsumerResult.mk.injEq, true_and,
        and_true]
      omega

/-- C8. For every sequence `msgs` of deliveries and every number `c` of messages taken
before the cancellation signal fires, the consumer loop returns nil, takes
`min (c + 1) msgs.length` messages and settles each of them exactly once, in order: the
first `c` by `Ack(false)`, and the message taken after cancellation, if there is one, by
`Nack(false, true)` and not by an Ack; no message behind it is taken. -/
theorem consumer_settles_each_once (calls : List BrokerCall) (msgs : List Delivery)
    (c : Nat) :
    (consumeLoop calls (cancelAfter c msgs) 0 []).returned = none ∧
    (consumeLoop calls (cancelAfter c msgs) 0 []).taken = min (c + 1) msgs.length ∧
    (consumeLoop calls (cancelAfter c msgs) 0 []).settled.map (·.1) =
      msgs.take (consumeLoop calls (cancelAfter c msgs) 0 []).taken ∧
    (consumeLoop calls (cancelAfter c msgs) 0 []).settled =
      (msgs.take c).map (fun m => (m, Settlement.ack false)) ++
        ((msgs.drop c).take 1).map (fun m => (m, Settlement.nack false true)) := by
  rw [consumeLoop_cancelAfter]
  refine ⟨rfl, by simp, ?_, by simp⟩
  simp only [List.nil_append, Nat.zero_add, List.map_append, List.map_map]
  have h1 : ((fun x : Delivery × Settlement => x.1) ∘ fun m => (m, Settlement.ack false)) = id := rfl
  have h2 : ((fun x : Delivery × Settlement => x.1) ∘ fun m => (m, Settlement.nack false true)) = id := rfl
  rw [h1, h2, List.map_id, List.map_id]
  rw [← List.take_add]
  rcases Nat.le_total (c + 1) msgs.length with h | h
  · rw [Nat.min_eq_left h]
  · rw [Nat.min_eq_right h, List.take_of_length_le h, List.take_of_length_le (Nat.le_refl _)]

/-- C9 (counterexample).  On a broker where every set-up call succeeds, the queue is declared
with `exclusive = true` but `autoDelete = false` (and `durable = false`): no declaration
with `autoDelete = true` is among the calls. -/
theorem queue_not_declared_autoDelete :
    (startEventHandlers ⟨.ok "amq.gen-1", none, none⟩ []).calls.head? =
      some (BrokerCall.queueDeclare "" false false true false) ∧
    ∀ (name : String) (durable exclusive noWait : Bool),
      BrokerCall.queueDeclare name durable true exclusive noWait ∉
        (startEventHandlers ⟨.ok "amq.gen-1", none, none⟩ []).calls := by
  refine ⟨by decide, ?_⟩
  intro name durable exclusive noWait h
  simp [startEventHandlers, consumeLoop] at h

/-- C9 (amended).  The function `startEventHandlers` declares its queue with an empty
name, `durable = false`, `autoDelete = false`, `exclusive = true`; it binds the queue the
broker named to the exchange `"AccountCreated"` with an empty routing key, and starts
consuming from it with `autoAck = false`.  A failure of any of the three calls is
returned to the caller at once: no later call is made and no message is taken or
settled. -/
theorem startEventHandlers_setup (env : ConsumerEnv) (msgs : List (Delivery × Bool)) :
    (startEventHandlers env msgs).calls.head? =
      some (BrokerCall.queueDeclare "" false false true false) ∧
    (∀ e, env.declare = .error e →
      (startEventHandlers env msgs) =
        { returned := some e, calls := [BrokerCall.queueDeclare "" false false true false],
          taken := 0, settled := [] }) ∧
    (∀ q e, env.declare = .ok q → env.bindErr = some e →
      (startEventHandlers env msgs) =
        { returned := some e,
          calls := [BrokerCall.queueDeclare "" false false true false,
                    BrokerCall.queueBind q "" "AccountCreated" false],
          taken := 0, settled := [] }) ∧
    (∀ q e, env.declare = .ok q → env.bindErr = none → env.consumeErr = some e →
      (startEventHandlers env msgs) =
        { returned := some e,
          calls := [BrokerCall.queueDeclare "" false false true false,
                    BrokerCall.queueBind q "" "AccountCreated" false,
                    BrokerCall.consume q "" false false false false],
          taken := 0, settled := [] }) ∧
    (∀ q, env.declare = .ok q → env.bindErr = none → env.consumeErr = none →
      (startEventHandlers env msgs) =
        consumeLoop [BrokerCall.queueDeclare "" false false true false,
                     BrokerCall.queueBind q "" "AccountCreated" false,
                     BrokerCall.consume q "" false false false false] msgs 0 [] ∧
      (startEventHandlers env msgs).calls =
        [BrokerCall.queueDeclare "" false false true false,
         BrokerCall.queueBind q "" "AccountCreated" false,
         BrokerCall.consume q "" false false false false]) := by
  have hcalls : ∀ (calls : List BrokerCall) (l : List (Delivery × Bool)) (n : Nat)
      (acc : List (Delivery × Settlement)), (consumeLoop calls l n acc).calls = calls := by
    intro calls l
    induction l with
    | nil => intro n acc; rfl
    | cons x xs ih =>
      intro n acc
      rcases x with ⟨m, d⟩
      cases d <;> simp [consumeLoop, ih]
  refine ⟨?_, ?_, ?_, ?_, ?_⟩
  · unfold startEventHandlers
    cases env.declare with
    | error e => rfl
    | ok q =>
      cases env.bindErr with
      | some e => rfl
      | none =>
        cases env.consumeErr with
        | some e => rfl
        | none => simp [hcalls]
  · intro e h; simp [startEventHandlers, h]
  · intro q e h hb; simp [startEventHandlers, h, hb]
  · intro q e h hb hc; simp [startEventHandlers, h, hb, hc]
  · intro q h hb hc; simp [startEventHandlers, h, hb, hc, hcalls]

end Outbox
